import Mathlib

/-
Verification development for the yosys JSON frontend
(frontends/json/jsonparse.cc).

The file embeds, as executable Lean definitions:
  - the lenient recursive-descent JSON reader of JsonNode::JsonNode
    (modelled over a List Char stream, with a fuel argument standing in
    for the unbounded C++ recursion), and
  - the netlist importer json_import / JsonFrontend::execute, with the
    RTLIL target-graph operations it invokes modelled from the spec's
    external-collaborator contract (create-module, add-wire, connect,
    add-cell, set-cell-connection, finalize-ports).

Theorems below settle the frozen specification claims against these
definitions.
-/

namespace YosysJson

/-- Characters written via their code points so that the embedding does not
depend on how quote, backslash and brace literals are rendered. -/
def qC : Char := Char.ofNat 34

/-- Backslash character. -/
def bsC : Char := Char.ofNat 92

/-- Opening curly brace character. -/
def lbC : Char := Char.ofNat 123

/-- Closing curly brace character. -/
def rbC : Char := Char.ofNat 125

/-- Horizontal tab character. -/
def tabC : Char := Char.ofNat 9

/-- Carriage-return character. -/
def crC : Char := Char.ofNat 13

/-- Line-feed character. -/
def lfC : Char := Char.ofNat 10

/-- Whitespace test of the source: space, tab, CR, LF. -/
def isWs (c : Char) : Bool :=
  c = ' ' || c = tabC || c = crC || c = lfC

/-- Separator test used inside arrays and objects: whitespace or comma
(lines 108 and 132 of the source treat a comma exactly like whitespace). -/
def isSep (c : Char) : Bool :=
  isWs c || c = ','

/-- Digit test of the source: between 0 and 9 inclusive. -/
def isDigitCh (c : Char) : Bool :=
  '0' ≤ c && c ≤ '9'

/-- JSON tree value produced by the reader: type field S, N, A or D of the
C++ JsonNode. -/
inductive JsonNode where
  | S (s : String)
  | N (n : Nat)
  | A (elems : List JsonNode)
  | D (fields : List (String × JsonNode))
deriving Repr, Inhabited

/-- Errors of the reader. The first three correspond to the log_error
calls of JsonNode::JsonNode; fuelOut is an artifact of the fuel-based
embedding and is proved unreachable for sufficient fuel. -/
inductive PErr where
  | eof
  | badChar (c : Char)
  | nonStringKey
  | fuelOut
deriving Repr, DecidableEq

/-- Skip whitespace, as the head loop of JsonNode::JsonNode does before
dispatching on the first significant character. -/
def skipWs : List Char → List Char
  | [] => []
  | c :: rest => if isWs c then skipWs rest else c :: rest

/-- Skip whitespace and commas, as the array and object element loops do. -/
def skipSep : List Char → List Char
  | [] => []
  | c :: rest => if isSep c then skipSep rest else c :: rest

/-- Skip whitespace and colons between an object key and its value
(lines 141-153); reaching end of input inside this loop is an error. -/
def skipColon : List Char → Except PErr (List Char)
  | [] => .error .eof
  | c :: rest => if isWs c || c = ':' then skipColon rest else .ok (c :: rest)

/-- Scan a string body after the opening quote (lines 51-69). A closing
quote ends the string; a backslash consumes and discards the following
character while the backslash itself is appended (the inner ch shadows
the outer one in the source, so data_string += ch appends the backslash). -/
def scanString : List Char → Except PErr (List Char × List Char)
  | [] => .error .eof
  | c :: rest =>
    if c = qC then .ok ([], rest)
    else if c = bsC then
      match rest with
      | [] => .error .eof
      | _ :: rest2 =>
        match scanString rest2 with
        | .error e => .error e
        | .ok (cs, r) => .ok (bsC :: cs, r)
    else
      match scanString rest with
      | .error e => .error e
      | .ok (cs, r) => .ok (c :: cs, r)

/-- Scan the remaining digits of a number (lines 79-92); the first
non-digit is pushed back, and end of input simply ends the number. -/
def scanNumber (acc : Nat) : List Char → Nat × List Char
  | [] => (acc, [])
  | c :: rest =>
    if isDigitCh c then scanNumber (acc * 10 + (c.toNat - 48)) rest
    else (acc, c :: rest)

/-- Store a key/value pair in an object, last write wins in place, as the
insertion-ordered dict of the source does. -/
def dictInsert (fs : List (String × JsonNode)) (k : String) (v : JsonNode) :
    List (String × JsonNode) :=
  if fs.any (fun kv => kv.1 = k) then
    fs.map (fun kv => if kv.1 = k then (k, v) else kv)
  else
    fs ++ [(k, v)]

mutual

/-- One JsonNode constructor call: skip whitespace, then dispatch on the
first significant character (string, number, array, object), else fail.
The fuel argument bounds the recursion depth of the embedding. -/
def parseNode : Nat → List Char → Except PErr (JsonNode × List Char)
  | 0, _ => .error .fuelOut
  | f + 1, s =>
    match skipWs s with
    | [] => .error .eof
    | c :: rest =>
      if c = qC then
        match scanString rest with
        | .error e => .error e
        | .ok (cs, r) => .ok (.S (String.mk cs), r)
      else if isDigitCh c then
        let p := scanNumber (c.toNat - 48) rest
        .ok (.N p.1, p.2)
      else if c = '[' then
        match parseArr f rest with
        | .error e => .error e
        | .ok (xs, r) => .ok (.A xs, r)
      else if c = lbC then
        match parseObj f rest [] with
        | .error e => .error e
        | .ok (fs, r) => .ok (.D fs, r)
      else .error (.badChar c)

/-- The array element loop (lines 101-116): skip separators, stop on a
closing bracket, otherwise push the character back and read one value. -/
def parseArr : Nat → List Char → Except PErr (List JsonNode × List Char)
  | 0, _ => .error .fuelOut
  | f + 1, s =>
    match skipSep s with
    | [] => .error .eof
    | c :: rest =>
      if c = ']' then .ok ([], rest)
      else
        match parseNode f (c :: rest) with
        | .error e => .error e
        | .ok (x, r) =>
          match parseArr f r with
          | .error e => .error e
          | .ok (xs, r2) => .ok (x :: xs, r2)

/-- The object member loop (lines 125-161): skip separators, stop on a
closing brace, otherwise read a key node, skip whitespace and colons,
read a value node, and require the key to be a string. -/
def parseObj : Nat → List Char → List (String × JsonNode) →
    Except PErr (List (String × JsonNode) × List Char)
  | 0, _, _ => .error .fuelOut
  | f + 1, s, acc =>
    match skipSep s with
    | [] => .error .eof
    | c :: rest =>
      if c = rbC then .ok (acc, rest)
      else
        match parseNode f (c :: rest) with
        | .error e => .error e
        | .ok (key, r1) =>
          match skipColon r1 with
          | .error e => .error e
          | .ok r2 =>
            match parseNode f r2 with
            | .error e => .error e
            | .ok (val, r3) =>
              match key with
              | .S ks => parseObj f r3 (dictInsert acc ks val)
              | _ => .error .nonStringKey

end

/-- Read one JsonNode from the whole stream (JsonFrontend reads a single
root node and ignores any trailing characters), supplying fuel that is
proved sufficient below. -/
def parse (cs : List Char) : Except PErr JsonNode :=
  match parseNode (2 * cs.length + 1) cs with
  | .error e => .error e
  | .ok (n, _) => .ok n

/-- A parse outcome other than fuel exhaustion: a value, or one of the
genuine fatal errors of the source. -/
def terminated : Except PErr JsonNode → Bool
  | .ok _ => true
  | .error .fuelOut => false
  | .error _ => true

/-- The four RTLIL constant bit states used by the importer. -/
inductive St4 where
  | S0
  | S1
  | Sx
  | Sz
deriving Repr, DecidableEq

/-- One bit of a signal: a constant state, or bit offset of a named wire
of the module under construction (wire names are unique per module, so a
name and an offset identify an RTLIL SigBit). -/
inductive SigBit where
  | const (s : St4)
  | bit (wire : String) (offset : Nat)
deriving Repr, DecidableEq

/-- A wire of the module under construction, with its port flags. -/
structure Wire where
  name : String
  width : Nat
  port_input : Bool
  port_output : Bool
deriving Repr, DecidableEq

/-- A cell with its named signal connections. -/
structure Cell where
  name : String
  ctype : String
  connections : List (String × List SigBit)
deriving Repr, DecidableEq

/-- Modelled from the spec: the target-graph module state touched by the
importer (the RTLIL Module class itself is outside the given source).
Wires, point-to-point connections (a pair (dst, src) records that dst is
driven by src, matching connect(dst_bit, src_bit_or_constant)), cells,
and a counter for fresh anonymous wire names (NEW_ID). -/
structure Module where
  name : String
  wires : List Wire
  connections : List (SigBit × SigBit)
  cells : List Cell
  autoIdx : Nat
deriving Repr, DecidableEq

/-- Modelled from the spec: identifier escaping is an out-of-scope
external collaborator, so names pass through unchanged. -/
def escape_id (s : String) : String := s

/-- Fresh anonymous wire name generated for the n-th NEW_ID call. -/
def autoName (n : Nat) : String := "$auto$" ++ toString n

/-- Modelled from the spec: get-wire(module, name), present or absent. -/
def Module.wire (m : Module) (name : String) : Option Wire :=
  m.wires.find? (fun w => w.name = name)

/-- Modelled from the spec: add-wire(module, name, width) creates a wire
that is not yet a port. -/
def Module.addWire (m : Module) (name : String) (width : Nat) :
    Module × Wire :=
  let w : Wire := ⟨name, width, false, false⟩
  ({ m with wires := m.wires ++ [w] }, w)

/-- Modelled from the spec: an add-wire call under a fresh NEW_ID name,
default width 1, as used for unseen bit ids in cell connections. -/
def Module.addAutoWire (m : Module) : Module × Wire :=
  let w : Wire := ⟨autoName m.autoIdx, 1, false, false⟩
  ({ m with wires := m.wires ++ [w], autoIdx := m.autoIdx + 1 }, w)

/-- Replace the wire of the same name, modelling in-place mutation of the
C++ wire object (set-port-direction). -/
def Module.setWire (m : Module) (w : Wire) : Module :=
  { m with wires := m.wires.map (fun x => if x.name = w.name then w else x) }

/-- Modelled from the spec: connect(dst_bit, src_bit_or_constant) appends
one driven-by pair to the module. -/
def Module.connect (m : Module) (dst src : SigBit) : Module :=
  { m with connections := m.connections ++ [(dst, src)] }

/-- Modelled from the spec: add-cell(module, name, type). -/
def Module.addCell (m : Module) (name ctype : String) : Module :=
  { m with cells := m.cells ++ [⟨name, ctype, []⟩] }

/-- Store a named connection on a cell, last write wins in place. -/
def setConn (cs : List (String × List SigBit)) (k : String)
    (v : List SigBit) : List (String × List SigBit) :=
  if cs.any (fun kv => kv.1 = k) then
    cs.map (fun kv => if kv.1 = k then (k, v) else kv)
  else
    cs ++ [(k, v)]

/-- Modelled from the spec: set-cell-connection(cell, conn_name, vector),
applied to the cell of the given name. -/
def Module.setCellPort (m : Module) (cname conn : String)
    (sig : List SigBit) : Module :=
  { m with
    cells := m.cells.map (fun c =>
      if c.name = cname then { c with connections := setConn c.connections conn sig }
      else c) }

/-- Modelled from the spec: finalize-ports is delegated entirely to the
host graph and does not affect the state modelled here. -/
def Module.fixup_ports (m : Module) : Module := m

/-- Errors of json_import and JsonFrontend::execute; one constructor per
log_error site, carrying the names the message would carry. -/
inductive ImpErr where
  | parseFail (e : PErr)
  | rootNotDict
  | modulesNotDict
  | redefinition (m : String)
  | portsNotDict
  | portNotDict (p : String)
  | portNoDirection (p : String)
  | portNoBits (p : String)
  | portDirNotString (p : String)
  | portBitsNotArray (p : String)
  | portInvalidDirection (p d : String)
  | portInvalidBitString (p s : String) (i : Nat)
  | portInvalidBitValue (p : String) (i : Nat)
  | netnamesNotDict
  | netNotDict (n : String)
  | netNoBits (n : String)
  | netBitsNotArray (n : String)
  | netInvalidBitString (n s : String) (i : Nat)
  | netInvalidBitValue (n : String) (i : Nat)
  | cellsNotDict
  | cellNotDict (c : String)
  | cellNoType (c : String)
  | cellTypeNotString (c : String)
  | cellNoConnections (c : String)
  | cellConnectionsNotDict (c : String)
  | cellConnNotArray (c k : String)
  | cellInvalidBitString (c k s : String) (i : Nat)
  | cellInvalidBitValue (c k : String) (i : Nat)
deriving Repr, DecidableEq

/-- The MalformedPortError class of the spec: direction or bits missing,
or of the wrong variant. -/
def isMalformedPortError : ImpErr → Bool
  | .portNoDirection _ => true
  | .portNoBits _ => true
  | .portDirNotString _ => true
  | .portBitsNotArray _ => true
  | _ => false

/-- The BitTable: bit id to current representative signal bit, in
insertion order. -/
abbrev SB := List (Nat × SigBit)

/-- BitTable membership test, count(bitidx) of the source. -/
def sbCount (t : SB) (k : Nat) : Bool :=
  t.any (fun kv => kv.1 = k)

/-- BitTable read, at(bitidx) of the source. -/
def sbAt (t : SB) (k : Nat) : Option SigBit :=
  (List.find? (fun kv => kv.1 = k) t).map (fun kv => kv.2)

/-- BitTable write, last write wins in place. -/
def sbSet (t : SB) (k : Nat) (v : SigBit) : SB :=
  if t.any (fun kv => kv.1 = k) then
    t.map (fun kv => if kv.1 = k then (k, v) else kv)
  else
    t ++ [(k, v)]

/-- Membership test of a key in a JSON object, data_dict.count of the
source (the dict of a non-object node is empty). -/
def JsonNode.dictCount (n : JsonNode) (k : String) : Bool :=
  match n with
  | .D fs => fs.any (fun kv => kv.1 = k)
  | _ => false

/-- Read of a key in a JSON object, data_dict.at of the source. -/
def JsonNode.dictAt (n : JsonNode) (k : String) : Option JsonNode :=
  match n with
  | .D fs => (List.find? (fun kv => kv.1 = k) fs).map (fun kv => kv.2)
  | _ => none

/-- Decode one of the four constant bit strings, in the comparison order
of the source. -/
def constOfString (s : String) : Option St4 :=
  if s = "0" then some .S0
  else if s = "1" then some .S1
  else if s = "x" then some .Sx
  else if s = "z" then some .Sz
  else none

/-- Mark the port wire per its direction string (lines 230-239): input
sets the input flag, output sets the output flag, inout sets only the
output flag, anything else is fatal. -/
def setPortDirection (pname : String) (w : Wire) (dir : String) :
    Except ImpErr Wire :=
  if dir = "input" then .ok { w with port_input := true }
  else if dir = "output" then .ok { w with port_output := true }
  else if dir = "inout" then .ok { w with port_output := true }
  else .error (.portInvalidDirection pname dir)

/-- Resolve one port bit (lines 241-273): a constant string connects the
wire bit to that constant; a number looks the id up in the BitTable and,
when present, connects toward or from the representative depending on the
wire's output flag, replacing the representative in the input case; an
unseen id registers the wire bit as provisional representative. -/
def importPortBit (m : Module) (sb : SB) (pname : String) (pw : Wire)
    (i : Nat) (bn : JsonNode) : Except ImpErr (Module × SB) :=
  let sigbit := SigBit.bit pw.name i
  match bn with
  | .S str =>
    match constOfString str with
    | some st => .ok (m.connect sigbit (.const st), sb)
    | none => .error (.portInvalidBitString pname str i)
  | .N idx =>
    match sbAt sb idx with
    | some rep =>
      if pw.port_output then .ok (m.connect sigbit rep, sb)
      else .ok (m.connect rep sigbit, sbSet sb idx sigbit)
    | none => .ok (m, sbSet sb idx sigbit)
  | _ => .error (.portInvalidBitValue pname i)

/-- Walk the bits array of one port, from bit index i. -/
def importPortBits (pname : String) (pw : Wire) :
    Module → SB → Nat → List JsonNode → Except ImpErr (Module × SB)
  | m, sb, _, [] => .ok (m, sb)
  | m, sb, i, b :: rest =>
    match importPortBit m sb pname pw i b with
    | .error e => .error e
    | .ok (m', sb') => importPortBits pname pw m' sb' (i + 1) rest

/-- Import one port entry (lines 202-274): the port object must be a
dict with a string direction and an array bits; the wire is reused when
already present, else created at the width of the bits array; then the
direction flags are set and every bit is resolved. -/
def importPort (m : Module) (sb : SB) (pname : String) (pnode : JsonNode) :
    Except ImpErr (Module × SB) :=
  match pnode with
  | .D fields =>
    match List.find? (fun kv => kv.1 = "direction") fields with
    | none => .error (.portNoDirection pname)
    | some dkv =>
      match List.find? (fun kv => kv.1 = "bits") fields with
      | none => .error (.portNoBits pname)
      | some bkv =>
        match dkv.2 with
        | .S dir =>
          match bkv.2 with
          | .A bits =>
            let mw :=
              match m.wire pname with
              | some w => (m, w)
              | none => m.addWire pname bits.length
            match setPortDirection pname mw.2 dir with
            | .error e => .error e
            | .ok w1 => importPortBits pname w1 (mw.1.setWire w1) sb 0 bits
          | _ => .error (.portBitsNotArray pname)
        | _ => .error (.portDirNotString pname)
  | _ => .error (.portNotDict pname)

/-- Walk all entries of the ports object in insertion order. -/
def importPorts : Module → SB → List (String × JsonNode) →
    Except ImpErr (Module × SB)
  | m, sb, [] => .ok (m, sb)
  | m, sb, (n, pn) :: rest =>
    match importPort m sb (escape_id n) pn with
    | .error e => .error e
    | .ok (m', sb') => importPorts m' sb' rest

/-- Resolve one netname bit (lines 307-335): constants as for ports; a
number whose id is present connects the new wire bit as driven by the
representative unless they are the same bit, and never replaces the
table entry; an unseen id registers the wire bit. -/
def importNetBit (m : Module) (sb : SB) (nname : String) (w : Wire)
    (i : Nat) (bn : JsonNode) : Except ImpErr (Module × SB) :=
  let sigbit := SigBit.bit w.name i
  match bn with
  | .S str =>
    match constOfString str with
    | some st => .ok (m.connect sigbit (.const st), sb)
    | none => .error (.netInvalidBitString nname str i)
  | .N idx =>
    match sbAt sb idx with
    | some rep =>
      if sigbit = rep then .ok (m, sb)
      else .ok (m.connect sigbit rep, sb)
    | none => .ok (m, sbSet sb idx sigbit)
  | _ => .error (.netInvalidBitValue nname i)

/-- Walk the bits array of one netname, from bit index i. -/
def importNetBits (nname : String) (w : Wire) :
    Module → SB → Nat → List JsonNode → Except ImpErr (Module × SB)
  | m, sb, _, [] => .ok (m, sb)
  | m, sb, i, b :: rest =>
    match importNetBit m sb nname w i b with
    | .error e => .error e
    | .ok (m', sb') => importNetBits nname w m' sb' (i + 1) rest

/-- Import one netname entry (lines 286-338). -/
def importNet (m : Module) (sb : SB) (nname : String) (nnode : JsonNode) :
    Except ImpErr (Module × SB) :=
  match nnode with
  | .D fields =>
    match List.find? (fun kv => kv.1 = "bits") fields with
    | none => .error (.netNoBits nname)
    | some bkv =>
      match bkv.2 with
      | .A bits =>
        let mw :=
          match m.wire nname with
          | some w => (m, w)
          | none => m.addWire nname bits.length
        importNetBits nname mw.2 mw.1 sb 0 bits
      | _ => .error (.netBitsNotArray nname)
  | _ => .error (.netNotDict nname)

/-- Walk all entries of the netnames object in insertion order. -/
def importNets : Module → SB → List (String × JsonNode) →
    Except ImpErr (Module × SB)
  | m, sb, [] => .ok (m, sb)
  | m, sb, (n, nn) :: rest =>
    match importNet m sb (escape_id n) nn with
    | .error e => .error e
    | .ok (m', sb') => importNets m' sb' rest

/-- Resolve one cell connection bit (lines 388-412): a constant string
yields that constant; a number whose id is present yields the existing
representative with the table unchanged; an unseen id allocates a fresh
anonymous wire, registers its bit 0 as representative and yields it. -/
def importCellBit (m : Module) (sb : SB) (cname conn : String) (i : Nat)
    (bn : JsonNode) : Except ImpErr (Module × SB × SigBit) :=
  match bn with
  | .S str =>
    match constOfString str with
    | some st => .ok (m, sb, .const st)
    | none => .error (.cellInvalidBitString cname conn str i)
  | .N idx =>
    match sbAt sb idx with
    | some v => .ok (m, sb, v)
    | none =>
      let mw := m.addAutoWire
      let v := SigBit.bit mw.2.name 0
      .ok (mw.1, sbSet sb idx v, v)
  | _ => .error (.cellInvalidBitValue cname conn i)

/-- Walk the bits array of one cell connection and build the signal
vector in order. -/
def importCellBits (cname conn : String) :
    Module → SB → Nat → List JsonNode → List SigBit →
    Except ImpErr (Module × SB × List SigBit)
  | m, sb, _, [], sig => .ok (m, sb, sig)
  | m, sb, i, b :: rest, sig =>
    match importCellBit m sb cname conn i b with
    | .error e => .error e
    | .ok (m', sb', v) => importCellBits cname conn m' sb' (i + 1) rest (sig ++ [v])

/-- Walk all connections of one cell in insertion order, binding each
assembled vector to the cell. -/
def importCellConns (cname : String) :
    Module → SB → List (String × JsonNode) → Except ImpErr (Module × SB)
  | m, sb, [] => .ok (m, sb)
  | m, sb, (k, cn) :: rest =>
    match cn with
    | .A bits =>
      match importCellBits cname (escape_id k) m sb 0 bits [] with
      | .error e => .error e
      | .ok (m', sb', sig) =>
        importCellConns cname (m'.setCellPort cname (escape_id k) sig) sb' rest
    | _ => .error (.cellConnNotArray cname (escape_id k))

/-- Import one cell entry (lines 348-419): the cell object must be a dict
with a string type; the cell is created, then its connections object
(required, a dict) is walked. -/
def importCell (m : Module) (sb : SB) (cname : String) (cnode : JsonNode) :
    Except ImpErr (Module × SB) :=
  match cnode with
  | .D _ =>
    match cnode.dictAt ("type") with
    | none => .error (.cellNoType cname)
    | some tn =>
      match tn with
      | .S ty =>
        let m1 := m.addCell cname (escape_id ty)
        match cnode.dictAt ("connections") with
        | none => .error (.cellNoConnections cname)
        | some conns =>
          match conns with
          | .D cfields => importCellConns cname m1 sb cfields
          | _ => .error (.cellConnectionsNotDict cname)
      | _ => .error (.cellTypeNotString cname)
  | _ => .error (.cellNotDict cname)

/-- Walk all entries of the cells object in insertion order. -/
def importCells : Module → SB → List (String × JsonNode) →
    Except ImpErr (Module × SB)
  | m, sb, [] => .ok (m, sb)
  | m, sb, (n, cn) :: rest =>
    match importCell m sb (escape_id n) cn with
    | .error e => .error e
    | .ok (m', sb') => importCells m' sb' rest

/-- The ports phase of json_import (lines 195-277): skipped when the
module node has no ports key; the ports node must be a dict; ports are
finalized afterwards. -/
def portsPhase (node : JsonNode) (m : Module) (sb : SB) :
    Except ImpErr (Module × SB) :=
  match node.dictAt ("ports") with
  | none => .ok (m, sb)
  | some pn =>
    match pn with
    | .D fields =>
      match importPorts m sb fields with
      | .error e => .error e
      | .ok (m', sb') => .ok (m'.fixup_ports, sb')
    | _ => .error .portsNotDict

/-- The netnames phase of json_import (lines 279-339). -/
def netsPhase (node : JsonNode) (m : Module) (sb : SB) :
    Except ImpErr (Module × SB) :=
  match node.dictAt ("netnames") with
  | none => .ok (m, sb)
  | some nn =>
    match nn with
    | .D fields => importNets m sb fields
    | _ => .error .netnamesNotDict

/-- The cells phase of json_import (lines 341-420). -/
def cellsPhase (node : JsonNode) (m : Module) (sb : SB) :
    Except ImpErr (Module × SB) :=
  match node.dictAt ("cells") with
  | none => .ok (m, sb)
  | some cn =>
    match cn with
    | .D fields => importCells m sb fields
    | _ => .error .cellsNotDict

/-- Import one module (json_import, lines 179-421): create the module,
fail on redefinition, run the ports, netnames and cells phases with a
fresh BitTable, and add the finished module to the design. -/
def json_import (design : List Module) (modname : String)
    (node : JsonNode) : Except ImpErr (List Module) :=
  let mname := escape_id modname
  if design.any (fun m => m.name = mname) then .error (.redefinition mname)
  else
    let m0 : Module := ⟨mname, [], [], [], 0⟩
    match portsPhase node m0 [] with
    | .error e => .error e
    | .ok (m1, sb1) =>
      match netsPhase node m1 sb1 with
      | .error e => .error e
      | .ok (m2, sb2) =>
        match cellsPhase node m2 sb2 with
        | .error e => .error e
        | .ok (m3, _) => .ok (design ++ [m3])

/-- Walk all entries of the modules object in insertion order. -/
def importModules : List Module → List (String × JsonNode) →
    Except ImpErr (List Module)
  | d, [] => .ok d
  | d, (name, n) :: rest =>
    match json_import d name n with
    | .error e => .error e
    | .ok d' => importModules d' rest

/-- JsonFrontend::execute (lines 435-465): parse one root node, require
a dict, and when a modules key is present require a dict and import
every module; without a modules key the design is returned unchanged. -/
def execute (design : List Module) (input : String) :
    Except ImpErr (List Module) :=
  match parse input.toList with
  | .error e => .error (.parseFail e)
  | .ok root =>
    match root with
    | .D _ =>
      match root.dictAt ("modules") with
      | none => .ok design
      | some mods =>
        match mods with
        | .D fields => importModules design fields
        | _ => .error .modulesNotDict
    | _ => .error .rootNotDict

/-- Scenario A of the spec as a parsed tree: one input port a of one bit
carrying id 1, then one output port b of one bit carrying id 1. -/
def scenarioA : JsonNode :=
  .D [("ports", .D [
    ("a", .D [("direction", .S ("input")), ("bits", .A [.N 1])]),
    ("b", .D [("direction", .S ("output")), ("bits", .A [.N 1])])])]

/-- Scenario B of the spec as a parsed tree: a single cell whose one
connection references id 5, which appears nowhere else. -/
def scenarioB : JsonNode :=
  .D [("cells", .D [("c", .D [
    ("type", .S ("AND")),
    ("connections", .D [("A", .A [.N 5])])])])]

/-- Scenario C input text of the spec. -/
def scenarioCInput : String :=
  "\x7b\"modules\":\x7b\"top\":\x7b\"ports\":\x7b\"o\":\x7b\"direction\":\"output\",\"bits\":[\"1\",\"0\"]\x7d\x7d\x7d\x7d\x7d"

/-- Scenario D input text of the spec: the port object lacks a direction
key. -/
def scenarioDInput : String :=
  "\x7b\"modules\":\x7b\"top\":\x7b\"ports\":\x7b\"o\":\x7b\"bits\":[1]\x7d\x7d\x7d\x7d\x7d"

/-- A module document whose single port has direction inout and an empty
bits array. -/
def inoutPortDoc : JsonNode :=
  .D [("ports", .D [("p", .D [("direction", .S ("inout")), ("bits", .A [])])])]

/-- A truncated document: an array that is never closed. -/
def truncatedDoc : String := "[1,"

/-- A document whose root object has no modules key. -/
def emptyObjDoc : String := "\x7b\x7d"

/-- Characters that are neither a quote nor a backslash, so that a string
scan passes them through one by one. -/
def cleanChars (cs : List Char) : Bool :=
  cs.all (fun c => !(c == qC) && !(c == bsC))

/-- A value text that the reader consumes exactly, leaving any following
characters untouched and producing the given node. -/
def ParsesExactly (f : Nat) (s : List Char) (n : JsonNode) : Prop :=
  ∀ rest, parseNode f (s ++ rest) = .ok (n, rest)

/-- A value text that the reader consumes exactly whenever the next
character is an element separator or a closing bracket — the positions a
value occupies inside an array. Number texts satisfy this (the digit
scan stops at the separator and pushes it back) even though they do not
satisfy ParsesExactly under an arbitrary continuation. -/
def ParsesUpto (f : Nat) (s : List Char) (n : JsonNode) : Prop :=
  ∀ (c : Char) (rest : List Char), isSep c = true ∨ c = ']' →
    parseNode f (s ++ c :: rest) = .ok (n, c :: rest)

/-- A small module used to instantiate theorems at concrete inputs. -/
def mEmpty : Module := ⟨"t", [], [], [], 0⟩

/-- A concrete output-port wire. -/
def wOut : Wire := ⟨"b", 1, false, true⟩

/-- A concrete input-port wire. -/
def wIn : Wire := ⟨"c", 1, true, false⟩

/-- A concrete one-entry BitTable: id 1 is represented by bit 0 of wire a. -/
def sbTest : SB := [(1, SigBit.bit ("a") 0)]

/-- A helper fact: an absent key under any is also absent under find?. -/
theorem find?_none_of_any_false {α : Type} (p : α → Bool) (l : List α)
    (h : l.any p = false) : List.find? p l = none := by
  rw [List.find?_eq_none]
  intro x hx
  have h' := List.any_eq_false.mp h x hx
  simpa using h'

/-- C1: in the ports phase, a BitId endpoint whose id is already in the
BitTable connects the wire bit as driven by the existing representative
when the wire is an output port, leaving the table unchanged; when the
wire is not an output port (an input port), it connects the existing
representative as driven by the wire bit and then replaces the table
entry with the wire bit. In particular, Scenario A: a module with input
port a (1 bit, id 1) processed first and output port b (1 bit, id 1)
yields b connected as driven by a. -/
theorem c1_port_existing_id :
    (∀ (m : Module) (sb : SB) (pname : String) (pw : Wire) (i idx : Nat)
      (rep : SigBit),
      sbAt sb idx = some rep → pw.port_output = true →
      importPortBit m sb pname pw i (.N idx) =
        .ok ({ m with connections :=
                m.connections ++ [(SigBit.bit pw.name i, rep)] }, sb)) ∧
    (∀ (m : Module) (sb : SB) (pname : String) (pw : Wire) (i idx : Nat)
      (rep : SigBit),
      sbAt sb idx = some rep → pw.port_output = false →
      importPortBit m sb pname pw i (.N idx) =
        .ok ({ m with connections :=
                m.connections ++ [(rep, SigBit.bit pw.name i)] },
          sbSet sb idx (SigBit.bit pw.name i))) ∧
    json_import [] ("top") scenarioA =
      .ok [⟨"top", [⟨"a", 1, true, false⟩, ⟨"b", 1, false, true⟩],
            [(.bit ("b") 0, .bit ("a") 0)], [], 0⟩] := by
  refine ⟨?_, ?_, by rfl⟩ <;>
  · intro m sb pname pw i idx rep h ho
    simp [importPortBit, h, ho, Module.connect]

/-- Witness for C1: both hypothesised branches applied at concrete
inputs. -/
theorem c1_witness :
    sbAt sbTest 1 = some (SigBit.bit ("a") 0) ∧
    wOut.port_output = true ∧
    wIn.port_output = false ∧
    importPortBit mEmpty sbTest ("b") wOut 0 (.N 1) =
      .ok ({ mEmpty with connections :=
              mEmpty.connections ++ [(SigBit.bit wOut.name 0, SigBit.bit ("a") 0)] },
        sbTest) ∧
    importPortBit mEmpty sbTest ("c") wIn 0 (.N 1) =
      .ok ({ mEmpty with connections :=
              mEmpty.connections ++ [(SigBit.bit ("a") 0, SigBit.bit wIn.name 0)] },
        sbSet sbTest 1 (SigBit.bit wIn.name 0)) :=
  ⟨rfl, rfl, rfl,
    c1_port_existing_id.1 mEmpty sbTest ("b") wOut 0 1 (SigBit.bit ("a") 0) rfl rfl,
    c1_port_existing_id.2.1 mEmpty sbTest ("c") wIn 0 1 (SigBit.bit ("a") 0) rfl rfl⟩

/-- C3: in the cells phase, a constant endpoint appends that constant to
the signal vector; a BitId endpoint already in the BitTable appends the
existing representative and leaves table and module unchanged; a BitId
endpoint not yet present allocates a fresh anonymous wire, registers its
bit 0 as the representative, and appends it. Scenario B: a cell
connection referencing id 5 that appears nowhere else succeeds and is
bound to a fresh anonymous wire. -/
theorem c3_cell_connection_bits :
    (∀ (m : Module) (sb : SB) (cn conn : String) (i : Nat) (s : String)
      (st : St4),
      constOfString s = some st →
      importCellBit m sb cn conn i (.S s) = .ok (m, sb, .const st)) ∧
    (∀ (m : Module) (sb : SB) (cn conn : String) (i idx : Nat) (v : SigBit),
      sbAt sb idx = some v →
      importCellBit m sb cn conn i (.N idx) = .ok (m, sb, v)) ∧
    (∀ (m : Module) (sb : SB) (cn conn : String) (i idx : Nat),
      sbAt sb idx = none →
      importCellBit m sb cn conn i (.N idx) =
        .ok ({ m with
                wires := m.wires ++ [⟨autoName m.autoIdx, 1, false, false⟩],
                autoIdx := m.autoIdx + 1 },
          sbSet sb idx (SigBit.bit (autoName m.autoIdx) 0),
          SigBit.bit (autoName m.autoIdx) 0)) ∧
    json_import [] ("top") scenarioB =
      .ok [⟨"top", [⟨autoName 0, 1, false, false⟩], [],
            [⟨"c", "AND", [("A", [SigBit.bit (autoName 0) 0])]⟩], 1⟩] := by
  refine ⟨?_, ?_, ?_, by rfl⟩
  · intro m sb cn conn i s st h
    simp [importCellBit, h]
  · intro m sb cn conn i idx v h
    simp [importCellBit, h]
  · intro m sb cn conn i idx h
    simp [importCellBit, h, Module.addAutoWire]

/-- Witness for C3: all three hypothesised branches applied at concrete
inputs. -/
theorem c3_witness :
    constOfString ("1") = some .S1 ∧
    sbAt sbTest 1 = some (SigBit.bit ("a") 0) ∧
    sbAt sbTest 5 = none ∧
    importCellBit mEmpty sbTest ("c") ("A") 0 (.S ("1")) =
      .ok (mEmpty, sbTest, .const .S1) ∧
    importCellBit mEmpty sbTest ("c") ("A") 0 (.N 1) =
      .ok (mEmpty, sbTest, SigBit.bit ("a") 0) ∧
    importCellBit mEmpty sbTest ("c") ("A") 0 (.N 5) =
      .ok ({ mEmpty with
              wires := mEmpty.wires ++ [⟨autoName mEmpty.autoIdx, 1, false, false⟩],
              autoIdx := mEmpty.autoIdx + 1 },
        sbSet sbTest 5 (SigBit.bit (autoName mEmpty.autoIdx) 0),
        SigBit.bit (autoName mEmpty.autoIdx) 0) :=
  ⟨rfl, rfl, rfl,
    c3_cell_connection_bits.1 mEmpty sbTest ("c") ("A") 0 ("1") .S1 rfl,
    c3_cell_connection_bits.2.1 mEmpty sbTest ("c") ("A") 0 1 (SigBit.bit ("a") 0) rfl,
    c3_cell_connection_bits.2.2.1 mEmpty sbTest ("c") ("A") 0 5 rfl⟩

/-- C4: in the netnames phase, a BitId endpoint whose id is already in
the BitTable connects the new wire bit as driven by the existing
representative when they are distinct, makes no connection when they are
equal, and in either case never replaces the table entry; an absent id
registers the wire bit as provisional representative. -/
theorem c4_netname_bits :
    (∀ (m : Module) (sb : SB) (nname : String) (w : Wire) (i idx : Nat)
      (rep : SigBit),
      sbAt sb idx = some rep → SigBit.bit w.name i ≠ rep →
      importNetBit m sb nname w i (.N idx) =
        .ok ({ m with connections :=
                m.connections ++ [(SigBit.bit w.name i, rep)] }, sb)) ∧
    (∀ (m : Module) (sb : SB) (nname : String) (w : Wire) (i idx : Nat)
      (rep : SigBit),
      sbAt sb idx = some rep → SigBit.bit w.name i = rep →
      importNetBit m sb nname w i (.N idx) = .ok (m, sb)) ∧
    (∀ (m : Module) (sb : SB) (nname : String) (w : Wire) (i idx : Nat),
      sbAt sb idx = none →
      importNetBit m sb nname w i (.N idx) =
        .ok (m, sbSet sb idx (SigBit.bit w.name i))) := by
  refine ⟨?_, ?_, ?_⟩
  · intro m sb nname w i idx rep h hne
    simp [importNetBit, h, hne, Module.connect]
  · intro m sb nname w i idx rep h heq
    simp [importNetBit, h, heq]
  · intro m sb nname w i idx h
    simp [importNetBit, h]

/-- Witness for C4: all three hypothesised branches applied at concrete
inputs. -/
theorem c4_witness :
    sbAt sbTest 1 = some (SigBit.bit ("a") 0) ∧
    SigBit.bit wOut.name 0 ≠ SigBit.bit ("a") 0 ∧
    SigBit.bit ("a") 0 = SigBit.bit ("a") 0 ∧
    sbAt sbTest 5 = none ∧
    importNetBit mEmpty sbTest ("n") wOut 0 (.N 1) =
      .ok ({ mEmpty with connections :=
              mEmpty.connections ++ [(SigBit.bit wOut.name 0, SigBit.bit ("a") 0)] },
        sbTest) ∧
    importNetBit mEmpty sbTest ("n") wIn 0 (.N 5) =
      .ok (mEmpty, sbSet sbTest 5 (SigBit.bit wIn.name 0)) :=
  ⟨rfl, by decide, rfl, rfl,
    c4_netname_bits.1 mEmpty sbTest ("n") wOut 0 1 (SigBit.bit ("a") 0) rfl (by decide),
    c4_netname_bits.2.2 mEmpty sbTest ("n") wIn 0 5 rfl⟩

/-- C5: a direction string input sets the wire's input flag; output or
inout sets the output flag; for inout the input flag is not set, so a
fresh inout port wire ends with output true and input false, as the
concrete inout module import confirms. -/
theorem c5_direction_flags :
    (∀ (p n : String) (k : Nat) (bi bo : Bool),
      setPortDirection p ⟨n, k, bi, bo⟩ ("input") = .ok ⟨n, k, true, bo⟩) ∧
    (∀ (p n : String) (k : Nat) (bi bo : Bool),
      setPortDirection p ⟨n, k, bi, bo⟩ ("output") = .ok ⟨n, k, bi, true⟩) ∧
    (∀ (p n : String) (k : Nat) (bi bo : Bool),
      setPortDirection p ⟨n, k, bi, bo⟩ ("inout") = .ok ⟨n, k, bi, true⟩) ∧
    (∀ (p n : String) (k : Nat),
      setPortDirection p ⟨n, k, false, false⟩ ("inout") = .ok ⟨n, k, false, true⟩) ∧
    json_import [] ("m") inoutPortDoc =
      .ok [⟨"m", [⟨"p", 0, false, true⟩], [], [], 0⟩] := by
  refine ⟨?_, ?_, ?_, ?_, by rfl⟩ <;>
  · intros
    simp [setPortDirection]

/-- C6: importing the Scenario C document produces module top with a
2-bit output wire o, bit 0 connected as driven by constant 1 and bit 1
connected as driven by constant 0. -/
theorem c6_scenario_c :
    execute [] scenarioCInput =
      .ok [⟨"top", [⟨"o", 2, false, true⟩],
            [(.bit ("o") 0, .const .S1), (.bit ("o") 1, .const .S0)],
            [], 0⟩] := by
  rfl

/-- C7: a port object lacking a direction key or lacking a bits key makes
the import fail with a MalformedPortError; in particular the Scenario D
document fails that way. -/
theorem c7_malformed_port :
    (∀ (m : Module) (sb : SB) (p : String) (fields : List (String × JsonNode)),
      fields.any (fun kv => kv.1 = "direction") = false →
      importPort m sb p (.D fields) = .error (.portNoDirection p) ∧
        isMalformedPortError (.portNoDirection p) = true) ∧
    (∀ (m : Module) (sb : SB) (p : String) (fields : List (String × JsonNode)),
      fields.any (fun kv => kv.1 = "bits") = false →
      ∃ e, importPort m sb p (.D fields) = .error e ∧
        isMalformedPortError e = true) ∧
    (execute [] scenarioDInput = .error (.portNoDirection ("o")) ∧
      isMalformedPortError (.portNoDirection ("o")) = true) := by
  refine ⟨?_, ?_, by rfl, rfl⟩
  · intro m sb p fields h
    exact ⟨by simp [importPort, find?_none_of_any_false _ _ h], rfl⟩
  · intro m sb p fields h
    cases hd : List.find? (fun kv => kv.1 = "direction") fields with
    | none => exact ⟨.portNoDirection p, by simp [importPort, hd], rfl⟩
    | some dkv =>
      exact ⟨.portNoBits p,
        by simp [importPort, hd, find?_none_of_any_false _ _ h], rfl⟩

/-- Witness for C7: both hypothesised conjuncts applied at concrete
inputs. -/
theorem c7_witness :
    (List.any [("bits", JsonNode.A [JsonNode.N 1])]
      (fun kv => kv.1 = "direction") = false) ∧
    (importPort mEmpty [] ("o") (.D [("bits", JsonNode.A [JsonNode.N 1])]) =
        .error (.portNoDirection ("o")) ∧
      isMalformedPortError (.portNoDirection ("o")) = true) ∧
    (List.any [("direction", JsonNode.S ("input"))]
      (fun kv => kv.1 = "bits") = false) ∧
    (∃ e, importPort mEmpty [] ("o") (.D [("direction", JsonNode.S ("input"))]) =
        .error e ∧ isMalformedPortError e = true) :=
  ⟨by decide, c7_malformed_port.1 mEmpty [] ("o") _ (by decide),
    by decide, c7_malformed_port.2.1 mEmpty [] ("o") _ (by decide)⟩

/-- C10: when the parsed document root is an object without a modules
key, the frontend completes successfully and returns the design
unchanged. -/
theorem c10_no_modules (design : List Module) (input : String)
    (fields : List (String × JsonNode))
    (h1 : parse input.toList = .ok (.D fields))
    (h2 : fields.any (fun kv => kv.1 = "modules") = false) :
    execute design input = .ok design := by
  unfold execute
  rw [h1]
  have h3 : JsonNode.dictAt (.D fields) ("modules") = none := by
    simp [JsonNode.dictAt, find?_none_of_any_false _ _ h2]
  simp [h3]

/-- Witness for C10: the empty-object document leaves an empty design
unchanged. -/
theorem c10_witness :
    parse (String.toList emptyObjDoc) = .ok (.D []) ∧
    List.any ([] : List (String × JsonNode)) (fun kv => kv.1 = "modules") = false ∧
    execute [] emptyObjDoc = .ok [] :=
  ⟨rfl, rfl, c10_no_modules [] emptyObjDoc [] rfl rfl⟩

/-- A string scan that opens on a closing quote ends at once. -/
theorem scanString_quote (rest : List Char) :
    scanString (qC :: rest) = .ok ([], rest) := by
  rw [scanString.eq_def]
  dsimp only
  rw [if_pos rfl]

/-- A string scan that meets a backslash discards the next character and
appends the backslash to whatever the rest scans to. -/
theorem scanString_backslash (d : Char) (rest : List Char) :
    scanString (bsC :: d :: rest) =
      (match scanString rest with
       | .error e => .error e
       | .ok (cs, r) => .ok (bsC :: cs, r)) := rfl

/-- A string scan passes an ordinary character through. -/
theorem scanString_other (c : Char) (rest : List Char) (h1 : ¬(c = qC))
    (h2 : ¬(c = bsC)) :
    scanString (c :: rest) =
      (match scanString rest with
       | .error e => .error e
       | .ok (cs, r) => .ok (c :: cs, r)) := by
  rw [scanString.eq_def]
  dsimp only
  rw [if_neg h1, if_neg h2]

/-- A clean character run followed by a closing quote scans to itself. -/
theorem scanString_clean (cs rest : List Char) (h : cleanChars cs = true) :
    scanString (cs ++ qC :: rest) = .ok (cs, rest) := by
  induction cs with
  | nil => exact scanString_quote rest
  | cons c t ih =>
    simp only [cleanChars, List.all_cons, Bool.and_eq_true, Bool.not_eq_true',
      beq_eq_false_iff_ne, ne_eq] at h
    have ih' := ih (by simpa [cleanChars, Bool.not_eq_true', beq_eq_false_iff_ne] using h.2)
    rw [List.cons_append, scanString_other c _ h.1.1 h.1.2, ih']

/-- C2: inside a string token a backslash consumes and discards the
character that follows it while the backslash itself is appended
verbatim to the value; in particular the document containing the
characters quote a backslash n b quote parses to the string a backslash
b. -/
theorem c2_escape :
    (∀ (s1 : List Char) (d : Char) (s2 rest : List Char),
      cleanChars s1 = true → cleanChars s2 = true →
      scanString (s1 ++ bsC :: d :: (s2 ++ qC :: rest)) =
        .ok (s1 ++ bsC :: s2, rest)) ∧
    parse (String.toList "\"a\\nb\"") = .ok (.S "a\\b") := by
  constructor
  · intro s1 d s2 rest
    induction s1 with
    | nil =>
      intro _ h2
      rw [List.nil_append, scanString_backslash, scanString_clean s2 rest h2]
      rfl
    | cons c t ih =>
      intro h1 h2
      simp only [cleanChars, List.all_cons, Bool.and_eq_true, Bool.not_eq_true',
        beq_eq_false_iff_ne, ne_eq] at h1
      have ih' := ih (by simpa [cleanChars, Bool.not_eq_true', beq_eq_false_iff_ne] using h1.2) h2
      rw [List.cons_append, scanString_other c _ h1.1.1 h1.1.2, ih']
      rfl
  · rfl

/-- Witness for C2: the quantified part applied at the concrete string
body a backslash n b. -/
theorem c2_witness :
    cleanChars ['a'] = true ∧ cleanChars ['b'] = true ∧
    scanString (['a'] ++ bsC :: 'n' :: (['b'] ++ qC :: [])) =
      .ok (['a'] ++ bsC :: ['b'], []) :=
  ⟨by decide, by decide, c2_escape.1 ['a'] 'n' ['b'] [] (by decide) (by decide)⟩

/-- A non-whitespace character stops the whitespace skip at once. -/
theorem skipWs_cons_not (c : Char) (s : List Char) (h : isWs c = false) :
    skipWs (c :: s) = c :: s := by simp [skipWs, h]

/-- A non-separator character stops the separator skip at once. -/
theorem skipSep_cons_not (c : Char) (s : List Char) (h : isSep c = false) :
    skipSep (c :: s) = c :: s := by simp [skipSep, h]

/-- Any run of separator characters is skipped whole, so commas and
whitespace are interchangeable in separator position. -/
theorem skipSep_all_sep (seps s : List Char) (h : seps.all isSep = true) :
    skipSep (seps ++ s) = skipSep s := by
  induction seps with
  | nil => rfl
  | cons c t ih =>
    simp only [List.all_cons, Bool.and_eq_true] at h
    simp [skipSep, h.1, ih h.2]

/-- The array loop closes on a closing bracket. -/
theorem parseArr_close (f : Nat) (rest : List Char) :
    parseArr (f + 1) (']' :: rest) = .ok ([], rest) := by
  conv_lhs => rw [parseArr]
  rw [skipSep_cons_not _ _ (by decide)]
  exact if_pos rfl

/-- The array loop is invariant under any leading run of separators:
commas are treated exactly like whitespace. -/
theorem parseArr_sep_invariant (f : Nat) (seps s : List Char)
    (h : seps.all isSep = true) :
    parseArr (f + 1) (seps ++ s) = parseArr (f + 1) s := by
  conv_lhs => rw [parseArr]
  conv_rhs => rw [parseArr]
  rw [skipSep_all_sep _ _ h]

/-- The object member loop is likewise invariant under any leading run
of separators: commas are treated exactly like whitespace there too. -/
theorem parseObj_sep_invariant (f : Nat) (seps s : List Char)
    (acc : List (String × JsonNode)) (h : seps.all isSep = true) :
    parseObj (f + 1) (seps ++ s) acc = parseObj (f + 1) s acc := by
  conv_lhs => rw [parseObj]
  conv_rhs => rw [parseObj]
  rw [skipSep_all_sep _ _ h]

/-- A separator or closing bracket is never a digit, so it stops a
number scan. -/
theorem not_digit_of_sep_or_close (c : Char) (h : isSep c = true ∨ c = ']') :
    isDigitCh c = false := by
  rcases h with h | rfl
  · simp only [isSep, isWs, Bool.or_eq_true, decide_eq_true_eq] at h
    rcases h with ((((h | h) | h) | h) | h) <;> subst h <;> decide
  · decide

/-- A value text consumed exactly under every continuation is in
particular consumed exactly before a separator or closing bracket. -/
theorem parsesUpto_of_exact (f : Nat) (s : List Char) (n : JsonNode)
    (H : ParsesExactly f s n) : ParsesUpto f s n :=
  fun c rest _ => H (c :: rest)

/-- A single digit is a number text that the reader consumes exactly
before a separator or closing bracket: the digit scan pushes the
stopping character back. -/
theorem parsesUpto_single_digit (f : Nat) (d : Char) (hw : isWs d = false)
    (hq : ¬(d = qC)) (hd : isDigitCh d = true) :
    ParsesUpto (f + 1) [d] (.N (d.toNat - 48)) := by
  intro c rest hc
  have hcd := not_digit_of_sep_or_close c hc
  have hnum : scanNumber (d.toNat - 48) (c :: rest) = (d.toNat - 48, c :: rest) := by
    conv_lhs => rw [scanNumber]
    rw [hcd]
    simp
  rw [List.singleton_append]
  conv_lhs => rw [parseNode]
  rw [skipWs_cons_not _ _ hw]
  dsimp only
  rw [if_neg hq, if_pos hd, hnum]

/-- The array loop on a value-starting character pushes it back and reads
one element. -/
theorem parseArr_step (f : Nat) (c : Char) (s : List Char)
    (h : isSep c = false) (hb : c ≠ ']') :
    parseArr (f + 1) (c :: s) =
      (match parseNode f (c :: s) with
       | .error e => .error e
       | .ok (x, r) =>
         match parseArr f r with
         | .error e => .error e
         | .ok (xs, r2) => .ok (x :: xs, r2)) := by
  conv_lhs => rw [parseArr]
  rw [skipSep_cons_not _ _ h]
  exact if_neg hb

/-- An opening bracket dispatches to the array loop. -/
theorem parseNode_arr_step (f : Nat) (X : List Char) :
    parseNode (f + 4) ('[' :: X) =
      (match parseArr (f + 3) X with
       | .error e => .error e
       | .ok (xs, r) => .ok (.A xs, r)) := rfl

/-- A quoted clean character run is a value text that the reader consumes
exactly, whatever follows it. -/
theorem parsesExactly_string (f : Nat) (cs : List Char)
    (h : cleanChars cs = true) :
    ParsesExactly (f + 1) (qC :: (cs ++ [qC])) (.S (String.mk cs)) := by
  intro rest
  rw [List.cons_append, List.append_assoc, List.singleton_append]
  conv_lhs => rw [parseNode]
  rw [skipWs_cons_not _ _ (by decide)]
  dsimp only
  rw [if_pos rfl, scanString_clean _ _ h]

/-- C8: inside arrays and objects the parser skips commas exactly like
whitespace, with no validation of their placement: the array element
loop and the object member loop are both invariant under any leading
run of separator characters, and for any two value texts that the
reader consumes exactly up to a separator or closing bracket (number
texts included), surrounding brackets with any nonempty separator run
between the values — one space, one comma, two commas, and so on —
parse to the same two-element array. -/
theorem c8_separators :
    (∀ (f : Nat) (seps s : List Char), seps.all isSep = true →
      parseArr (f + 1) (seps ++ s) = parseArr (f + 1) s) ∧
    (∀ (f : Nat) (seps s : List Char) (acc : List (String × JsonNode)),
      seps.all isSep = true →
      parseObj (f + 1) (seps ++ s) acc = parseObj (f + 1) s acc) ∧
    (∀ (f : Nat) (c1 c2 c0 : Char) (t1 t2 seps0 rest : List Char)
      (n1 n2 : JsonNode),
      isSep c1 = false → c1 ≠ ']' → isSep c2 = false → c2 ≠ ']' →
      isSep c0 = true → seps0.all isSep = true →
      ParsesUpto (f + 2) (c1 :: t1) n1 →
      ParsesUpto (f + 1) (c2 :: t2) n2 →
      parseNode (f + 4)
        ('[' :: ((c1 :: t1) ++
          ((c0 :: seps0) ++ ((c2 :: t2) ++ (']' :: rest))))) =
        .ok (.A [n1, n2], rest)) := by
  refine ⟨parseArr_sep_invariant, parseObj_sep_invariant, ?_⟩
  intro f c1 c2 c0 t1 t2 seps0 rest n1 n2 hs1 hb1 hs2 hb2 h0 hall H1 H2
  have hall01 : (c0 :: seps0).all isSep = true := by
    simp [List.all_cons, h0, hall]
  have e2 : parseArr (f + 2)
      (c0 :: (seps0 ++ ((c2 :: t2) ++ (']' :: rest)))) = .ok ([n2], rest) := by
    show parseArr ((f + 1) + 1)
      ((c0 :: seps0) ++ ((c2 :: t2) ++ (']' :: rest))) = _
    rw [parseArr_sep_invariant _ _ _ hall01]
    rw [List.cons_append, parseArr_step _ _ _ hs2 hb2, ← List.cons_append,
      H2 ']' rest (Or.inr rfl)]
    dsimp only
    rw [parseArr_close]
  have e3 : parseArr (f + 3)
      ((c1 :: t1) ++ ((c0 :: seps0) ++ ((c2 :: t2) ++ (']' :: rest)))) =
      .ok ([n1, n2], rest) := by
    show parseArr ((f + 2) + 1) _ = _
    rw [List.cons_append, parseArr_step _ _ _ hs1 hb1, ← List.cons_append]
    rw [show ((c0 :: seps0) ++ ((c2 :: t2) ++ (']' :: rest)) : List Char) =
      c0 :: (seps0 ++ ((c2 :: t2) ++ (']' :: rest))) from rfl]
    rw [H1 c0 (seps0 ++ ((c2 :: t2) ++ (']' :: rest))) (Or.inl h0)]
    dsimp only
    rw [e2]
  rw [parseNode_arr_step, e3]

/-- Witness for C8: the spec's own number example — the inputs written
bracket 1 space 2 bracket, bracket 1 comma 2 bracket, and bracket 1
comma comma 2 bracket all parse to the same two-element array of the
numbers 1 and 2 — together with concrete uses of the array and object
separator-invariance conjuncts. -/
theorem c8_witness :
    isSep '1' = false ∧ ('1' ≠ ']') ∧ isSep '2' = false ∧ ('2' ≠ ']') ∧
    isSep ' ' = true ∧ isSep ',' = true ∧
    List.all ([] : List Char) isSep = true ∧ List.all [','] isSep = true ∧
    isWs '1' = false ∧ ¬('1' = qC) ∧ isDigitCh '1' = true ∧
    isWs '2' = false ∧ ¬('2' = qC) ∧ isDigitCh '2' = true ∧
    parseNode 4
      ('[' :: (('1' :: []) ++ ((' ' :: []) ++ (('2' :: []) ++ (']' :: []))))) =
      .ok (.A [.N 1, .N 2], []) ∧
    parseNode 4
      ('[' :: (('1' :: []) ++ ((',' :: []) ++ (('2' :: []) ++ (']' :: []))))) =
      .ok (.A [.N 1, .N 2], []) ∧
    parseNode 4
      ('[' :: (('1' :: []) ++ ((',' :: [',']) ++ (('2' :: []) ++ (']' :: []))))) =
      .ok (.A [.N 1, .N 2], []) ∧
    parseArr 1 ([','] ++ (']' :: [])) = parseArr 1 (']' :: []) ∧
    parseObj 1 ([','] ++ (rbC :: [])) [] = parseObj 1 (rbC :: []) [] :=
  ⟨by decide, by decide, by decide, by decide, by decide, by decide, by decide,
    by decide, by decide, by decide, by decide, by decide, by decide, by decide,
    c8_separators.2.2 0 '1' '2' ' ' [] [] [] [] (.N 1) (.N 2)
      (by decide) (by decide) (by decide) (by decide) (by decide) (by decide)
      (parsesUpto_single_digit 1 '1' (by decide) (by decide) (by decide))
      (parsesUpto_single_digit 0 '2' (by decide) (by decide) (by decide)),
    c8_separators.2.2 0 '1' '2' ',' [] [] [] [] (.N 1) (.N 2)
      (by decide) (by decide) (by decide) (by decide) (by decide) (by decide)
      (parsesUpto_single_digit 1 '1' (by decide) (by decide) (by decide))
      (parsesUpto_single_digit 0 '2' (by decide) (by decide) (by decide)),
    c8_separators.2.2 0 '1' '2' ',' [] [] [','] [] (.N 1) (.N 2)
      (by decide) (by decide) (by decide) (by decide) (by decide) (by decide)
      (parsesUpto_single_digit 1 '1' (by decide) (by decide) (by decide))
      (parsesUpto_single_digit 0 '2' (by decide) (by decide) (by decide)),
    c8_separators.1 0 [','] (']' :: []) (by decide),
    c8_separators.2.1 0 [','] (rbC :: []) [] (by decide)⟩

theorem skipWs_length (s : List Char) : (skipWs s).length ≤ s.length := by
  induction s with
  | nil => simp [skipWs]
  | cons c t ih =>
    simp only [skipWs]
    split
    · exact le_trans ih (by simp)
    · exact le_refl _

theorem skipSep_length (s : List Char) : (skipSep s).length ≤ s.length := by
  induction s with
  | nil => simp [skipSep]
  | cons c t ih =>
    simp only [skipSep]
    split
    · exact le_trans ih (by simp)
    · exact le_refl _

theorem skipColon_err (s : List Char) (e : PErr) (h : skipColon s = .error e) :
    e = .eof := by
  induction s with
  | nil =>
    simp only [skipColon] at h
    exact ((Except.error.injEq _ _).mp h).symm
  | cons c t ih =>
    simp only [skipColon] at h
    split at h
    · exact ih h
    · exact absurd h (by simp)

theorem skipColon_length (s r : List Char) (h : skipColon s = .ok r) :
    r.length ≤ s.length := by
  induction s generalizing r with
  | nil => simp [skipColon] at h
  | cons c t ih =>
    simp only [skipColon] at h
    split at h
    · exact le_trans (ih r h) (by simp)
    · simp only [Except.ok.injEq] at h
      subst h
      exact le_refl _

theorem scanNumber_length (acc : Nat) (s : List Char) :
    (scanNumber acc s).2.length ≤ s.length := by
  induction s generalizing acc with
  | nil => simp [scanNumber]
  | cons c t ih =>
    simp only [scanNumber]
    split
    · exact le_trans (ih _) (by simp)
    · exact le_refl _

theorem scanString_err_aux (n : Nat) :
    ∀ (s : List Char) (e : PErr), s.length ≤ n → scanString s = .error e →
      e = .eof := by
  induction n with
  | zero =>
    intro s e hl h
    have hs : s = [] := List.eq_nil_of_length_eq_zero (Nat.le_zero.mp hl)
    subst hs
    simp only [scanString] at h
    exact ((Except.error.injEq _ _).mp h).symm
  | succ n ih =>
    intro s e hl h
    cases s with
    | nil =>
      simp only [scanString] at h
      exact ((Except.error.injEq _ _).mp h).symm
    | cons c t =>
      rw [scanString.eq_def] at h
      dsimp only at h
      split at h
      · exact absurd h (by simp)
      · split at h
        · split at h
          · exact ((Except.error.injEq _ _).mp h).symm
          · rename_i d rest2
            split at h
            · rename_i e0 heq
              have he := (Except.error.injEq _ _).mp h
              exact he ▸ ih rest2 e0 (by simp at hl; omega) heq
            · exact absurd h (by simp)
        · split at h
          · rename_i e0 heq
            have he := (Except.error.injEq _ _).mp h
            exact he ▸ ih t e0 (by simp at hl; omega) heq
          · exact absurd h (by simp)

theorem scanString_err (s : List Char) (e : PErr) (h : scanString s = .error e) :
    e = .eof :=
  scanString_err_aux s.length s e (le_refl _) h

theorem scanString_length_aux (n : Nat) :
    ∀ (s cs r : List Char), s.length ≤ n → scanString s = .ok (cs, r) →
      r.length < s.length := by
  induction n with
  | zero =>
    intro s cs r hl h
    have hs : s = [] := List.eq_nil_of_length_eq_zero (Nat.le_zero.mp hl)
    subst hs
    simp [scanString] at h
  | succ n ih =>
    intro s cs r hl h
    cases s with
    | nil => simp [scanString] at h
    | cons c t =>
      rw [scanString.eq_def] at h
      dsimp only at h
      split at h
      · simp only [Except.ok.injEq, Prod.mk.injEq] at h
        obtain ⟨-, rfl⟩ := h
        simp
      · split at h
        · split at h
          · exact absurd h (by simp)
          · rename_i d rest2
            split at h
            · exact absurd h (by simp)
            · rename_i cs0 r0 heq
              simp only [Except.ok.injEq, Prod.mk.injEq] at h
              obtain ⟨-, rfl⟩ := h
              have hlt := ih rest2 cs0 r0 (by simp at hl; omega) heq
              simp only [List.length_cons]
              omega
        · split at h
          · exact absurd h (by simp)
          · rename_i cs0 r0 heq
            simp only [Except.ok.injEq, Prod.mk.injEq] at h
            obtain ⟨-, rfl⟩ := h
            have hlt := ih t cs0 r0 (by simp at hl; omega) heq
            simp only [List.length_cons]
            omega

theorem scanString_length (s cs r : List Char)
    (h : scanString s = .ok (cs, r)) : r.length < s.length :=
  scanString_length_aux s.length s cs r (le_refl _) h



theorem parse_consume : ∀ f : Nat,
    (∀ s n r, parseNode f s = .ok (n, r) → r.length < s.length) ∧
    (∀ s xs r, parseArr f s = .ok (xs, r) → r.length < s.length) ∧
    (∀ s acc fs r, parseObj f s acc = .ok (fs, r) → r.length < s.length) := by
  intro f
  induction f with
  | zero =>
    refine ⟨?_, ?_, ?_⟩
    · intro s n r h; simp [parseNode] at h
    · intro s xs r h; simp [parseArr] at h
    · intro s acc fs r h; simp [parseObj] at h
  | succ f ih =>
    obtain ⟨ihN, ihA, ihO⟩ := ih
    refine ⟨?_, ?_, ?_⟩
    · intro s n r h
      rw [parseNode] at h
      dsimp only at h
      split at h
      · exact absurd h (by simp)
      · rename_i c rest heq
        have hlen : rest.length + 1 ≤ s.length := by
          have hw := skipWs_length s
          rw [heq] at hw
          simpa using hw
        split at h
        · split at h
          · exact absurd h (by simp)
          · rename_i cs0 r0 heq2
            simp only [Except.ok.injEq, Prod.mk.injEq] at h
            obtain ⟨-, rfl⟩ := h
            have := scanString_length rest cs0 r0 heq2
            omega
        · split at h
          · simp only [Except.ok.injEq, Prod.mk.injEq] at h
            obtain ⟨-, rfl⟩ := h
            have := scanNumber_length (c.toNat - 48) rest
            omega
          · split at h
            · split at h
              · exact absurd h (by simp)
              · rename_i xs0 r0 heq2
                simp only [Except.ok.injEq, Prod.mk.injEq] at h
                obtain ⟨-, rfl⟩ := h
                have := ihA rest xs0 r0 heq2
                omega
            · split at h
              · split at h
                · exact absurd h (by simp)
                · rename_i fs0 r0 heq2
                  simp only [Except.ok.injEq, Prod.mk.injEq] at h
                  obtain ⟨-, rfl⟩ := h
                  have := ihO rest [] fs0 r0 heq2
                  omega
              · exact absurd h (by simp)
    · intro s xs r h
      rw [parseArr] at h
      split at h
      · exact absurd h (by simp)
      · rename_i c rest heq
        have hlen : rest.length + 1 ≤ s.length := by
          have hw := skipSep_length s
          rw [heq] at hw
          simpa using hw
        split at h
        · simp only [Except.ok.injEq, Prod.mk.injEq] at h
          obtain ⟨-, rfl⟩ := h
          omega
        · split at h
          · exact absurd h (by simp)
          · rename_i x r1 heq2
            split at h
            · exact absurd h (by simp)
            · rename_i xs0 r2 heq3
              simp only [Except.ok.injEq, Prod.mk.injEq] at h
              obtain ⟨-, rfl⟩ := h
              have h1 := ihN _ _ _ heq2
              have h2 := ihA _ _ _ heq3
              simp only [List.length_cons] at h1
              omega
    · intro s acc fs r h
      rw [parseObj] at h
      split at h
      · exact absurd h (by simp)
      · rename_i c rest heq
        have hlen : rest.length + 1 ≤ s.length := by
          have hw := skipSep_length s
          rw [heq] at hw
          simpa using hw
        split at h
        · simp only [Except.ok.injEq, Prod.mk.injEq] at h
          obtain ⟨-, rfl⟩ := h
          omega
        · split at h
          · exact absurd h (by simp)
          · rename_i key r1 heq2
            split at h
            · exact absurd h (by simp)
            · rename_i r2 heq3
              split at h
              · exact absurd h (by simp)
              · rename_i val r3 heq4
                split at h
                · rename_i ks
                  have h1 := ihN _ _ _ heq2
                  have h2 := skipColon_length _ _ heq3
                  have h3 := ihN _ _ _ heq4
                  have h4 := ihO _ _ _ _ h
                  simp only [List.length_cons] at h1
                  omega
                · exact absurd h (by simp)



theorem parse_fuel : ∀ f : Nat,
    (∀ s, 2 * s.length + 1 ≤ f → parseNode f s ≠ .error .fuelOut) ∧
    (∀ s, 2 * s.length + 2 ≤ f → parseArr f s ≠ .error .fuelOut) ∧
    (∀ s acc, 2 * s.length + 2 ≤ f → parseObj f s acc ≠ .error .fuelOut) := by
  intro f
  induction f with
  | zero =>
    refine ⟨?_, ?_, ?_⟩
    · intro s hle; exact absurd hle (by omega)
    · intro s hle; exact absurd hle (by omega)
    · intro s acc hle; exact absurd hle (by omega)
  | succ f ih =>
    obtain ⟨ihN, ihA, ihO⟩ := ih
    refine ⟨?_, ?_, ?_⟩
    · intro s hle h
      rw [parseNode] at h
      dsimp only at h
      split at h
      · simp at h
      · rename_i c rest heq
        have hlen : rest.length + 1 ≤ s.length := by
          have hw := skipWs_length s
          rw [heq] at hw
          simpa using hw
        split at h
        · split at h
          · rename_i e0 heq2
            have he := (Except.error.injEq _ _).mp h
            have hee := scanString_err rest e0 heq2
            exact absurd (hee ▸ he) (by simp)
          · simp at h
        · split at h
          · simp at h
          · split at h
            · split at h
              · rename_i e0 heq2
                have he := (Except.error.injEq _ _).mp h
                exact ihA rest (by omega) (he ▸ heq2)
              · simp at h
            · split at h
              · split at h
                · rename_i e0 heq2
                  have he := (Except.error.injEq _ _).mp h
                  exact ihO rest [] (by omega) (he ▸ heq2)
                · simp at h
              · simp at h
    · intro s hle h
      rw [parseArr] at h
      split at h
      · simp at h
      · rename_i c rest heq
        have hlen : rest.length + 1 ≤ s.length := by
          have hw := skipSep_length s
          rw [heq] at hw
          simpa using hw
        split at h
        · simp at h
        · split at h
          · rename_i e0 heq2
            have he := (Except.error.injEq _ _).mp h
            exact ihN (c :: rest) (by simp only [List.length_cons]; omega)
              (he ▸ heq2)
          · rename_i x r1 heq2
            split at h
            · rename_i e0 heq3
              have he := (Except.error.injEq _ _).mp h
              have hcons := (parse_consume f).1 _ _ _ heq2
              simp only [List.length_cons] at hcons
              exact ihA r1 (by omega) (he ▸ heq3)
            · simp at h
    · intro s acc hle h
      rw [parseObj] at h
      split at h
      · simp at h
      · rename_i c rest heq
        have hlen : rest.length + 1 ≤ s.length := by
          have hw := skipSep_length s
          rw [heq] at hw
          simpa using hw
        split at h
        · simp at h
        · split at h
          · rename_i e0 heq2
            have he := (Except.error.injEq _ _).mp h
            exact ihN (c :: rest) (by simp only [List.length_cons]; omega)
              (he ▸ heq2)
          · rename_i key r1 heq2
            have hc1 := (parse_consume f).1 _ _ _ heq2
            simp only [List.length_cons] at hc1
            split at h
            · rename_i e0 heq3
              have he := (Except.error.injEq _ _).mp h
              have hee := skipColon_err r1 e0 heq3
              exact absurd (hee ▸ he) (by simp)
            · rename_i r2 heq3
              have hc2 := skipColon_length r1 r2 heq3
              split at h
              · rename_i e0 heq4
                have he := (Except.error.injEq _ _).mp h
                exact ihN r2 (by omega) (he ▸ heq4)
              · rename_i val r3 heq4
                have hc3 := (parse_consume f).1 _ _ _ heq4
                split at h
                · exact ihO r3 _ (by omega) h
                · simp at h

/-- C9: on every finite input stream the parser terminates with a value
or a genuine parse error (the fuel supplied by parse is proved
sufficient, so the fuel-exhaustion marker never surfaces), and a
truncated document reaches end of input and fails with the
unexpected-EOF error rather than looping. -/
theorem c9_parse_terminates :
    (∀ cs : List Char, terminated (parse cs) = true) ∧
    parse (String.toList truncatedDoc) = .error .eof := by
  constructor
  · intro cs
    unfold parse
    have hf := (parse_fuel (2 * cs.length + 1)).1 cs (le_refl _)
    cases hp : parseNode (2 * cs.length + 1) cs with
    | ok p => simp [terminated]
    | error e =>
      rw [hp] at hf
      cases e with
      | fuelOut => exact absurd rfl hf
      | eof => simp [terminated]
      | badChar c => simp [terminated]
      | nonStringKey => simp [terminated]
  · rfl

end YosysJson
